import Mathlib

/-!
Verification of the research-agent service (`src/lib/agent.ts`) against its
natural-language specification.

Modelling conventions of this shallow embedding:
* JavaScript strings are modelled as `List Char` (`Str`); `s.length`,
  `s.slice(0, n)`, `s.includes(p)`, `s.startsWith(p)`, `s.trim()` become
  `List.length`, `List.take`, infix containment, prefix test and a two-sided
  whitespace drop.
* All numeric scores in `scoreSentence` are finite sums of multiples of `1/2`
  well below `2^51`, so IEEE doubles compute them exactly; likewise
  `total * 0.3` and `total * 0.6` round to values whose comparisons with an
  integer index agree with exact rational arithmetic for every list length
  arising from a `List Char` text.  Scores are therefore embedded as `ℚ`.
* `Array.prototype.sort` with the comparators used in the source (score
  descending with index-ascending tie-break; index ascending on distinct
  indices) is a sort by a total preorder and is modelled by `List.mergeSort`.
* External effects (the HTTP fetch, the Brave search call, the OpenRouter
  completion call, `JSON.parse`, `Date`) are inputs of the handler functions:
  an oracle value or function supplied per request, exactly as the handler
  observes them.  `callAI` returns the empty string on a missing key, a
  non-success response or a thrown error, so "completion capability
  unavailable or failed" is the oracle value `[]`.
-/

/-- JavaScript strings, embedded as lists of characters. -/
abbrev Str := List Char

/-- Membership of a character in the JavaScript `\s` class (the whitespace
characters that occur in this development). -/
def isJsWS (c : Char) : Bool :=
  c == ' ' || c == '\t' || c == '\n' || c == '\r' ||
  c == '\x0b' || c == '\x0c' || c == ' '

/-- JavaScript `String.prototype.trim`. -/
def jsTrim (s : Str) : Str :=
  ((s.dropWhile isJsWS).reverse.dropWhile isJsWS).reverse

/-- Sentence-terminal punctuation of the split regex `(?<=[.!?])\s+`. -/
def sentencePunct (c : Char) : Bool := c == '.' || c == '!' || c == '?'

/-- Auxiliary length bound used for termination of the scanners below. -/
theorem length_dropWhile_le' (p : α → Bool) (l : List α) :
    (l.dropWhile p).length ≤ l.length := by
  induction l with
  | nil => simp [List.dropWhile]
  | cons a t ih =>
    by_cases h : p a
    · simp only [List.dropWhile, h]
      exact Nat.le_succ_of_le ih
    · simp [List.dropWhile, h]

/-- `text.split(/(?<=[.!?])\s+/)`: a separator is a maximal whitespace run
whose immediately preceding character is `.`, `!` or `?`.  The first argument
is the remaining input, the second the current piece in reverse. -/
def splitSentencesAux : Str → Str → List Str
  | [], cur => [cur.reverse]
  | c :: rest, cur =>
    if isJsWS c && (match cur with | p :: _ => sentencePunct p | [] => false) then
      cur.reverse :: splitSentencesAux (rest.dropWhile isJsWS) []
    else
      splitSentencesAux rest (c :: cur)
termination_by l _ => l.length
decreasing_by
  · exact Nat.lt_succ_of_le (length_dropWhile_le' isJsWS rest)
  · exact Nat.lt_succ_self _

/-- `extractSentences` from `agent.ts`: split on sentence boundaries, trim,
filter to lengths strictly between 15 and 500. -/
def extractSentences (text : Str) : List Str :=
  ((splitSentencesAux text []).map jsTrim).filter
    (fun s => decide (15 < s.length) && decide (s.length < 500))

/-- The fixed lexicon of 15 discourse markers in `scoreSentence`. -/
def indicators : List Str :=
  ["important".toList, "key".toList, "significant".toList, "main".toList,
   "primary".toList, "conclusion".toList, "result".toList, "finding".toList,
   "therefore".toList, "thus".toList, "however".toList, "although".toList,
   "despite".toList, "notably".toList, "specifically".toList]

/-- JavaScript `String.prototype.toLowerCase` on the characters involved. -/
def toLowerStr (s : Str) : Str := s.map Char.toLower

/-- JavaScript `haystack.includes(needle)`. -/
def jsIncludes (haystack needle : Str) : Bool := decide (needle <:+: haystack)

/-- `scoreSentence(sentence, index, total, keywords)` from `agent.ts`,
with the two `for` loops rendered as left folds over the same lists. -/
def scoreSentence (sentence : Str) (index total : ℕ) (keywords : List Str) : ℚ :=
  let positionScore : ℚ :=
    if (index : ℚ) < (total : ℚ) * (3/10) then 2
    else if (index : ℚ) < (total : ℚ) * (6/10) then 1
    else 1/2
  let score := (0 : ℚ) + positionScore
  let score := if 50 < sentence.length ∧ sentence.length < 200 then score + 1 else score
  let lowerSentence := toLowerStr sentence
  let score := keywords.foldl
    (fun sc keyword => if jsIncludes lowerSentence (toLowerStr keyword) then sc + 3/2 else sc)
    score
  let score := indicators.foldl
    (fun sc indicator => if jsIncludes lowerSentence indicator then sc + 1/2 else sc)
    score
  let score := if jsIncludes sentence "?".toList || decide ("\x22".toList <+: sentence) then
    score - 1/2 else score
  score

/-- The anonymous record `{sentence, score, index}` built in `summarizeText`. -/
structure ScoredItem where
  sentence : Str
  score : ℚ
  index : ℕ
  deriving DecidableEq

/-- `sentences.map((sentence, index) => ({sentence, score: ..., index}))`. -/
def scoreAll (sentences : List Str) (keywords : List Str) : List ScoredItem :=
  sentences.enum.map
    (fun p => ⟨p.2, scoreSentence p.2 p.1 sentences.length keywords, p.1⟩)

/-- The comparator `(a, b) => b.score - a.score || a.index - b.index`:
`a` precedes `b` when its score is higher, with ascending index on ties. -/
def leScoreDesc (a b : ScoredItem) : Bool :=
  decide (b.score < a.score ∨ (a.score = b.score ∧ a.index ≤ b.index))

/-- The comparator `(a, b) => a.index - b.index`: ascending original index. -/
def leIndexAsc (a b : ScoredItem) : Bool := decide (a.index ≤ b.index)

/-- The greedy acceptance loop of `summarizeText`: accept an item when
`currentLength + item.sentence.length + 2 <= maxLength`, and stop as soon as
five items have been accepted (the `break` after the conditional `push`). -/
def greedySelect (maxLength : ℕ) : List ScoredItem → ℕ → ℕ → List ScoredItem
  | [], _, _ => []
  | item :: rest, currentLength, count =>
    if currentLength + item.sentence.length + 2 ≤ maxLength then
      if 5 ≤ count + 1 then [item]
      else item :: greedySelect maxLength rest
        (currentLength + item.sentence.length + 2) (count + 1)
    else
      if 5 ≤ count then []
      else greedySelect maxLength rest currentLength count

/-- `text.split(/\s+/)`: separators are maximal whitespace runs anywhere. -/
def jsSplitWSAux : Str → Str → List Str
  | [], cur => [cur.reverse]
  | c :: rest, cur =>
    if isJsWS c then
      cur.reverse :: jsSplitWSAux (rest.dropWhile isJsWS) []
    else
      jsSplitWSAux rest (c :: cur)
termination_by l _ => l.length
decreasing_by
  · exact Nat.lt_succ_of_le (length_dropWhile_le' isJsWS rest)
  · exact Nat.lt_succ_self _

/-- `text.split(/\s+/).length`, the word count used by `summarizeText`. -/
def jsWordCount (text : Str) : ℕ := (jsSplitWSAux text []).length

/-- JavaScript `Array.prototype.join(sep)`. -/
def jsJoin (sep : Str) : List Str → Str
  | [] => []
  | [s] => s
  | s :: rest => s ++ sep ++ jsJoin sep rest

/-- The record returned by `summarizeText`. -/
structure SummaryResult where
  summary : Str
  keyPoints : List Str
  wordCount : ℕ
  deriving DecidableEq

/-- The sentence list of the summary: score all sentences, sort by the
score-descending comparator, select greedily, and restore ascending original
index order (the intermediate lists `scored`, `selected` of the source). -/
def selectedSentences (text : Str) (maxLength : ℕ) (keywords : List Str) : List Str :=
  ((greedySelect maxLength
      ((scoreAll (extractSentences text) keywords).mergeSort leScoreDesc) 0 0).mergeSort
    leIndexAsc).map (·.sentence)

/-- `summarizeText(text, maxLength, keywords)` from `agent.ts`. -/
def summarizeText (text : Str) (maxLength : ℕ) (keywords : List Str) : SummaryResult :=
  let sentences := extractSentences text
  if sentences.length = 0 then
    ⟨text.take maxLength, [], jsWordCount text⟩
  else
    let scored := (scoreAll sentences keywords).mergeSort leScoreDesc
    let summary := jsJoin " ".toList (selectedSentences text maxLength keywords)
    let keyPoints := (scored.take 3).map
      (fun s => if 100 < s.sentence.length then s.sentence.take 100 ++ "...".toList
                else s.sentence)
    ⟨summary, keyPoints, jsWordCount text⟩

/-! ### Lemmas about the greedy selection loop -/

/-- The budget charged for one accepted item: its length plus the `+ 2`
margin of the acceptance test. -/
def sentenceCost (x : ScoredItem) : ℕ := x.sentence.length + 2

theorem greedySelect_budget (M : ℕ) (l : List ScoredItem) : ∀ (cur cnt : ℕ),
    cur + ((greedySelect M l cur cnt).map sentenceCost).sum ≤ M ∨
    greedySelect M l cur cnt = [] := by
  induction l with
  | nil => intro cur cnt; right; rfl
  | cons item rest ih =>
    intro cur cnt
    by_cases h : cur + item.sentence.length + 2 ≤ M
    · by_cases h5 : 5 ≤ cnt + 1
      · left
        simp only [greedySelect, if_pos h, if_pos h5, List.map_cons, List.map_nil,
          List.sum_cons, List.sum_nil, sentenceCost]
        omega
      · rcases ih (cur + item.sentence.length + 2) (cnt + 1) with h1 | h1
        · left
          simp only [greedySelect, if_pos h, if_neg h5, List.map_cons,
            List.sum_cons, sentenceCost]
          omega
        · left
          simp only [greedySelect, if_pos h, if_neg h5, h1, List.map_cons,
            List.map_nil, List.sum_cons, List.sum_nil, sentenceCost]
          omega
    · by_cases h5 : 5 ≤ cnt
      · right; simp only [greedySelect, if_neg h, if_pos h5]
      · rcases ih cur cnt with h1 | h1
        · left; simpa only [greedySelect, if_neg h, if_neg h5] using h1
        · right; simpa only [greedySelect, if_neg h, if_neg h5] using h1

theorem greedySelect_sublist (M : ℕ) (l : List ScoredItem) : ∀ (cur cnt : ℕ),
    List.Sublist (greedySelect M l cur cnt) l := by
  induction l with
  | nil => intro cur cnt; simp [greedySelect]
  | cons item rest ih =>
    intro cur cnt
    by_cases h : cur + item.sentence.length + 2 ≤ M
    · by_cases h5 : 5 ≤ cnt + 1
      · simp only [greedySelect, if_pos h, if_pos h5]
        exact (List.nil_sublist rest).cons₂ item
      · simp only [greedySelect, if_pos h, if_neg h5]
        exact (ih _ _).cons₂ item
    · by_cases h5 : 5 ≤ cnt
      · simp only [greedySelect, if_neg h, if_pos h5]
        exact List.nil_sublist _
      · simp only [greedySelect, if_neg h, if_neg h5]
        exact (ih cur cnt).cons item

theorem greedySelect_length (M : ℕ) (l : List ScoredItem) : ∀ (cur cnt : ℕ),
    cnt < 5 → (greedySelect M l cur cnt).length + cnt ≤ 5 := by
  induction l with
  | nil => intro cur cnt h; simp [greedySelect]; omega
  | cons item rest ih =>
    intro cur cnt hcnt
    by_cases h : cur + item.sentence.length + 2 ≤ M
    · by_cases h5 : 5 ≤ cnt + 1
      · simp only [greedySelect, if_pos h, if_pos h5, List.length_cons,
          List.length_nil]
        omega
      · simp only [greedySelect, if_pos h, if_neg h5, List.length_cons]
        have := ih (cur + item.sentence.length + 2) (cnt + 1) (by omega)
        omega
    · by_cases h5 : 5 ≤ cnt
      · simp only [greedySelect, if_neg h, if_pos h5, List.length_nil]; omega
      · simp only [greedySelect, if_neg h, if_neg h5]
        exact ih cur cnt hcnt

/-- Joining with a one-character separator costs at most `length + 2` per
element of the joined list. -/
theorem jsJoin_length_le (L : List Str) :
    (jsJoin " ".toList L).length ≤ (L.map (fun s => s.length + 2)).sum := by
  induction L with
  | nil => simp [jsJoin]
  | cons s rest ih =>
    cases rest with
    | nil => simp [jsJoin]
    | cons t rest' =>
      simp only [jsJoin, List.length_append, List.map_cons, List.sum_cons] at ih ⊢
      have : (" ".toList).length = 1 := rfl
      omega

theorem selectedSentences_length_le (text : Str) (ml : ℕ) (kw : List Str) :
    (selectedSentences text ml kw).length ≤ 5 := by
  unfold selectedSentences
  simp only [List.length_map, (List.mergeSort_perm _ _).length_eq]
  have := greedySelect_length ml
    ((scoreAll (extractSentences text) kw).mergeSort leScoreDesc) 0 0 (by omega)
  omega

theorem jsJoin_selectedSentences_le (text : Str) (ml : ℕ) (kw : List Str) :
    (jsJoin " ".toList (selectedSentences text ml kw)).length ≤ ml := by
  unfold selectedSentences
  set scored := (scoreAll (extractSentences text) kw).mergeSort leScoreDesc with hs
  set selected := greedySelect ml scored 0 0 with hsel
  have hperm : List.Perm (selected.mergeSort leIndexAsc) selected :=
    List.mergeSort_perm _ _
  have h1 := jsJoin_length_le ((selected.mergeSort leIndexAsc).map (·.sentence))
  have h2 : (((selected.mergeSort leIndexAsc).map (·.sentence)).map
      (fun s => s.length + 2)).sum = ((selected.mergeSort leIndexAsc).map sentenceCost).sum := by
    rw [List.map_map]; rfl
  have h3 : ((selected.mergeSort leIndexAsc).map sentenceCost).sum
      = (selected.map sentenceCost).sum := (hperm.map sentenceCost).sum_eq
  rcases greedySelect_budget ml scored 0 0 with h4 | h4
  · rw [← hsel] at h4
    omega
  · rw [← hsel] at h4
    rw [h4]
    simp [jsJoin]

/-- Claim C4: for every text, non-negative `maxLength` and keyword list, the
summary produced by `summarizeText` has length at most `maxLength` — on the
normal path (greedy `currentLength + sentenceLength + 2 ≤ maxLength` budget
check, at most 5 accepted sentences, joined output) and on the degenerate
no-qualifying-sentence path (`text.slice(0, maxLength)`).  The second
conjunct records the hard cap of 5 selected sentences. -/
theorem summarize_length_within_bound (text : Str) (maxLength : ℕ) (keywords : List Str) :
    (summarizeText text maxLength keywords).summary.length ≤ maxLength ∧
    (selectedSentences text maxLength keywords).length ≤ 5 := by
  refine ⟨?_, selectedSentences_length_le text maxLength keywords⟩
  unfold summarizeText
  by_cases h : (extractSentences text).length = 0
  · simp only [if_pos h]
    rw [List.length_take]
    exact Nat.min_le_left _ _
  · simp only [if_neg h]
    exact jsJoin_selectedSentences_le text maxLength keywords

/-! ### Order preservation of the selected sentences -/

/-- A list of (index, value) pairs that all point into `xs` and whose indices
are strictly increasing reads off a sublist of `xs`. -/
theorem sublist_of_indexed : ∀ (xs : List Str) (s : List (ℕ × Str)),
    (∀ p ∈ s, xs[p.1]? = some p.2) → (s.map Prod.fst).Pairwise (· < ·) →
    List.Sublist (s.map Prod.snd) xs := by
  intro xs
  induction xs with
  | nil =>
    intro s h1 _
    cases s with
    | nil => simp
    | cons p t => exact absurd (h1 p (List.mem_cons_self _ _)) (by simp)
  | cons a xs ih =>
    intro s h1 h2
    cases s with
    | nil => exact List.nil_sublist _
    | cons p t =>
      have h2' := List.pairwise_cons.mp h2
      by_cases hp : p.1 = 0
      · have ha : a = p.2 := by
          have := h1 p (List.mem_cons_self _ _)
          rw [hp] at this
          simpa using this
        have key : List.Sublist ((t.map (fun q => (q.1 - 1, q.2))).map Prod.snd) xs := by
          apply ih
          · intro q hq
            obtain ⟨q0, hq0, rfl⟩ := List.mem_map.mp hq
            have hqpos : 0 < q0.1 := by
              have := h2'.1 q0.1 (List.mem_map_of_mem Prod.fst hq0)
              omega
            have hget := h1 q0 (List.mem_cons_of_mem p hq0)
            have hidx : q0.1 = (q0.1 - 1) + 1 := by omega
            rw [hidx, List.getElem?_cons_succ] at hget
            exact hget
          · rw [List.map_map, List.pairwise_map]
            have := (List.pairwise_map.mp h2'.2)
            refine this.imp_of_mem ?_
            intro q r hq _ hlt
            have hqpos : 0 < q.1 := by
              have := h2'.1 q.1 (List.mem_map_of_mem Prod.fst hq)
              omega
            simpa using (by omega : q.1 - 1 < r.1 - 1)
        rw [List.map_map] at key
        have heq : t.map (Prod.snd ∘ fun q => (q.1 - 1, q.2)) = t.map Prod.snd := by
          simp
        rw [heq] at key
        rw [List.map_cons, ← ha]
        exact key.cons₂ a
      · have hpos : ∀ q ∈ p :: t, 0 < q.1 := by
          intro q hq
          rcases List.mem_cons.mp hq with rfl | hm
          · omega
          · have := h2'.1 q.1 (List.mem_map_of_mem Prod.fst hm)
            omega
        have key : List.Sublist (((p :: t).map (fun q => (q.1 - 1, q.2))).map Prod.snd) xs := by
          apply ih
          · intro q hq
            obtain ⟨q0, hq0, rfl⟩ := List.mem_map.mp hq
            have hqpos : 0 < q0.1 := hpos q0 hq0
            have hget := h1 q0 hq0
            have hidx : q0.1 = (q0.1 - 1) + 1 := by omega
            rw [hidx, List.getElem?_cons_succ] at hget
            exact hget
          · rw [List.map_map, List.pairwise_map]
            have := (List.pairwise_map.mp h2)
            refine this.imp_of_mem ?_
            intro q r hq _ hlt
            have hqpos : 0 < q.1 := hpos q hq
            simpa using (by omega : q.1 - 1 < r.1 - 1)
        rw [List.map_map] at key
        have heq : (p :: t).map (Prod.snd ∘ fun q => (q.1 - 1, q.2))
            = (p :: t).map Prod.snd := by simp
        rw [heq] at key
        exact key.cons a

theorem scoreAll_mem_getElem? {sentences kw : List Str} {x : ScoredItem}
    (hx : x ∈ scoreAll sentences kw) : sentences[x.index]? = some x.sentence := by
  obtain ⟨p, hp, rfl⟩ := List.mem_map.mp hx
  exact List.mem_enum_iff_getElem?.mp hp

theorem scoreAll_index_nodup (sentences kw : List Str) :
    ((scoreAll sentences kw).map (·.index)).Nodup := by
  unfold scoreAll
  rw [List.map_map]
  have : (ScoredItem.index ∘ fun p : ℕ × Str =>
      (⟨p.2, scoreSentence p.2 p.1 sentences.length kw, p.1⟩ : ScoredItem))
      = Prod.fst := by
    funext p; rfl
  rw [this, List.enum_map_fst]
  exact List.nodup_range _

theorem leIndexAsc_trans : ∀ (a b c : ScoredItem),
    leIndexAsc a b = true → leIndexAsc b c = true → leIndexAsc a c = true := by
  intro a b c
  simp only [leIndexAsc, decide_eq_true_eq]
  omega

theorem leIndexAsc_total : ∀ (a b : ScoredItem),
    (leIndexAsc a b || leIndexAsc b a) = true := by
  intro a b
  simp only [leIndexAsc, Bool.or_eq_true, decide_eq_true_eq]
  omega

/-- Claim C3: the sentences selected into the extractive summary appear in
the summary in ascending original-index order, i.e. the joined sentence list
is a sublist (order-preserving selection) of the sentence list of the input
text; and the summary string is exactly a space-join of that list on the
normal path, resp. `text.slice(0, maxLength)` on the degenerate path. -/
theorem summarize_order_preserving (text : Str) (maxLength : ℕ) (keywords : List Str) :
    List.Sublist (selectedSentences text maxLength keywords) (extractSentences text) ∧
    (summarizeText text maxLength keywords).summary =
      (if (extractSentences text).length = 0 then text.take maxLength
       else jsJoin " ".toList (selectedSentences text maxLength keywords)) := by
  constructor
  · unfold selectedSentences
    set sentences := extractSentences text with hsent
    set scored := scoreAll sentences keywords with hscored
    set sorted := scored.mergeSort leScoreDesc with hsorted
    set selected := greedySelect maxLength sorted 0 0 with hselected
    set final := selected.mergeSort leIndexAsc with hfinal
    have hperm1 : List.Perm sorted scored := List.mergeSort_perm _ _
    have hsub : List.Sublist selected sorted := greedySelect_sublist _ _ 0 0
    have hperm2 : List.Perm final selected := List.mergeSort_perm _ _
    have hmem : ∀ x ∈ final, sentences[x.index]? = some x.sentence := by
      intro x hx
      have : x ∈ scored := hperm1.mem_iff.mp (hsub.mem (hperm2.mem_iff.mp hx))
      exact scoreAll_mem_getElem? this
    have hnodup : (final.map (·.index)).Nodup := by
      have h0 : (scored.map (·.index)).Nodup := scoreAll_index_nodup _ _
      have h1 : (sorted.map (·.index)).Nodup :=
        ((hperm1.map (·.index)).nodup_iff).mpr h0
      have h2 : (selected.map (·.index)).Nodup :=
        (hsub.map (·.index)).nodup h1
      exact ((hperm2.map (·.index)).nodup_iff).mpr h2
    have hle : final.Pairwise (fun a b => a.index ≤ b.index) := by
      have := List.sorted_mergeSort leIndexAsc_trans leIndexAsc_total selected
      rw [← hfinal] at this
      refine this.imp ?_
      intro a b h
      simpa only [leIndexAsc, decide_eq_true_eq] using h
    have hstrict : (final.map (·.index)).Pairwise (· < ·) := by
      rw [List.pairwise_map]
      have hne : final.Pairwise (fun a b => a.index ≠ b.index) :=
        List.pairwise_map.mp hnodup
      exact (hle.and hne).imp (fun h => by omega)
    have := sublist_of_indexed sentences (final.map (fun x => (x.index, x.sentence)))
      (by
        intro p hp
        obtain ⟨x, hx, rfl⟩ := List.mem_map.mp hp
        exact hmem x hx)
      (by
        rw [List.map_map]
        have : (Prod.fst ∘ fun x : ScoredItem => (x.index, x.sentence))
            = (·.index) := by funext x; rfl
        rw [this]
        exact hstrict)
    rw [List.map_map] at this
    have heq : (Prod.snd ∘ fun x : ScoredItem => (x.index, x.sentence))
        = (·.sentence) := by funext x; rfl
    rw [heq] at this
    exact this
  · unfold summarizeText
    by_cases h : (extractSentences text).length = 0
    · simp only [if_pos h]
    · simp only [if_neg h]

/-! ### Decomposition of the sentence score -/

/-- The position term of `scoreSentence`: `2` before 30% of the list, `1`
before 60%, `1/2` afterwards. -/
def positionTerm (index total : ℕ) : ℚ :=
  if (index : ℚ) < (total : ℚ) * (3/10) then 2
  else if (index : ℚ) < (total : ℚ) * (6/10) then 1
  else 1/2

/-- The length term of `scoreSentence`: `1` for lengths strictly between 50
and 200. -/
def lengthTerm (sentence : Str) : ℚ :=
  if 50 < sentence.length ∧ sentence.length < 200 then 1 else 0

/-- The keyword term of `scoreSentence`: `3/2` per caller keyword found
case-insensitively as a substring. -/
def keywordTerm (sentence : Str) (keywords : List Str) : ℚ :=
  (3/2) * ((keywords.filter
    (fun k => jsIncludes (toLowerStr sentence) (toLowerStr k))).length : ℚ)

/-- The indicator term as the code computes it: `1/2` per listed discourse
marker PRESENT in the lowercased sentence (presence, not occurrence count:
`lowerSentence.includes(indicator)` fires at most once per marker). -/
def indicatorPresenceTerm (sentence : Str) : ℚ :=
  (1/2) * ((indicators.filter
    (fun k => jsIncludes (toLowerStr sentence) k)).length : ℚ)

/-- The penalty term of `scoreSentence`: `-1/2` when the sentence contains a
question mark or starts with a double quote. -/
def penaltyTerm (sentence : Str) : ℚ :=
  if jsIncludes sentence "?".toList || decide ("\x22".toList <+: sentence) then
    -(1/2) else 0

theorem foldl_if_add (w : ℚ) (p : α → Bool) : ∀ (l : List α) (init : ℚ),
    l.foldl (fun sc k => if p k then sc + w else sc) init
      = init + w * ((l.filter p).length : ℚ) := by
  intro l
  induction l with
  | nil => intro init; simp
  | cons a t ih =>
    intro init
    by_cases h : p a
    · simp only [List.foldl_cons, if_pos h, List.filter_cons_of_pos h, ih,
        List.length_cons]
      push_cast
      ring
    · simp only [List.foldl_cons, if_neg h, List.filter_cons_of_neg h, ih]

/-- The number of occurrences of `pat` in `s` (starting positions at which
`pat` occurs), the reading of "per occurrence" in the claim. -/
def countOccurrences (pat s : Str) : ℕ :=
  (s.tails.filter (fun t => pat.isPrefixOf t)).length

/-- The indicator term as claim C5 words it: `1/2` per OCCURRENCE of each
listed discourse marker, so a marker occurring twice contributes `1`. -/
def indicatorOccurrenceTerm (sentence : Str) : ℚ :=
  (1/2) * (((indicators.map
    (fun k => countOccurrences k (toLowerStr sentence))).sum : ℕ) : ℚ)

/-- The total score formula exactly as claim C5 states it, with the
per-occurrence indicator term. -/
def claimScoreSentence (sentence : Str) (index total : ℕ) (keywords : List Str) : ℚ :=
  positionTerm index total + lengthTerm sentence + keywordTerm sentence keywords
    + indicatorOccurrenceTerm sentence + penaltyTerm sentence

/-- `scoreSentence` splits as a sum of the five independent terms above. -/
theorem scoreSentence_split (sentence : Str) (index total : ℕ) (keywords : List Str) :
    scoreSentence sentence index total keywords
      = positionTerm index total + lengthTerm sentence
        + keywordTerm sentence keywords + indicatorPresenceTerm sentence
        + penaltyTerm sentence := by
  unfold scoreSentence positionTerm lengthTerm keywordTerm indicatorPresenceTerm
    penaltyTerm
  dsimp only
  rw [foldl_if_add (3/2) (fun k => jsIncludes (toLowerStr sentence) (toLowerStr k)),
    foldl_if_add (1/2) (fun k => jsIncludes (toLowerStr sentence) k)]
  split_ifs <;> ring

/-- Claim C5 counterexample: on the sentence `"the key key point."` (index 0
of 1, no keywords) the marker `key` occurs twice, so the claimed
per-occurrence formula yields `3`, but `scoreSentence` adds `1/2` only once
per present marker and yields `5/2`. -/
theorem scoreSentence_not_per_occurrence :
    scoreSentence "the key key point.".toList 0 1 [] = 5/2 ∧
    claimScoreSentence "the key key point.".toList 0 1 [] = 3 ∧
    scoreSentence "the key key point.".toList 0 1 []
      ≠ claimScoreSentence "the key key point.".toList 0 1 [] := by
  have hpresence : (indicators.filter
      (fun k => jsIncludes (toLowerStr "the key key point.".toList) k)).length = 1 := by
    decide
  have hocc : (indicators.map
      (fun k => countOccurrences k (toLowerStr "the key key point.".toList))).sum = 2 := by
    decide
  have hlen : ¬(50 < "the key key point.".toList.length ∧
      "the key key point.".toList.length < 200) := by decide
  have hpen : ¬(jsIncludes "the key key point.".toList "?".toList
      || decide ("\x22".toList <+: "the key key point.".toList)) = true := by decide
  have hcode : scoreSentence "the key key point.".toList 0 1 [] = 5/2 := by
    rw [scoreSentence_split]
    rw [positionTerm, lengthTerm, keywordTerm, indicatorPresenceTerm, penaltyTerm]
    rw [if_neg hlen, if_neg hpen, hpresence]
    norm_num
  have hclaim : claimScoreSentence "the key key point.".toList 0 1 [] = 3 := by
    rw [claimScoreSentence, indicatorOccurrenceTerm]
    rw [positionTerm, lengthTerm, keywordTerm, penaltyTerm]
    rw [if_neg hlen, if_neg hpen, hocc]
    norm_num
  refine ⟨hcode, hclaim, ?_⟩
  rw [hcode, hclaim]
  norm_num

/-- Claim C5 (amended): the sentence score equals exactly the sum of the
position term (2 if `index < 0.3·total`, else 1 if `index < 0.6·total`, else
0.5), the length term (+1 for length strictly between 50 and 200), the
keyword term (+1.5 per caller keyword found case-insensitively as a
substring), an indicator term of +0.5 per listed discourse marker PRESENT
(case-insensitive substring; a marker occurring twice still contributes only
0.5), and a penalty of -0.5 if the sentence contains `?` or begins with a
quotation mark. -/
theorem scoreSentence_term_sum (sentence : Str) (index total : ℕ) (keywords : List Str) :
    scoreSentence sentence index total keywords
      = positionTerm index total + lengthTerm sentence
        + keywordTerm sentence keywords + indicatorPresenceTerm sentence
        + penaltyTerm sentence :=
  scoreSentence_split sentence index total keywords

/-! ### The text normalizer `extractText` -/

/-- Case-insensitive prefix test (the `i` flag of the tag regexes; the
patterns are given in lowercase). -/
def ciPrefixOf (pat s : Str) : Bool := pat.isPrefixOf (toLowerStr s)

/-- Match `<tag[^>]*>` (case-insensitive) at the head of `s`, returning the
remainder after the closing `>`. -/
def matchOpenTag (tag : Str) (s : Str) : Option Str :=
  match s with
  | c :: r =>
    if c = '<' ∧ ciPrefixOf tag r then
      match (r.drop tag.length).dropWhile (· != '>') with
      | '>' :: rest => some rest
      | _ => none
    else none
  | [] => none

theorem matchOpenTag_length {tag s t : Str} (h : matchOpenTag tag s = some t) :
    t.length < s.length := by
  unfold matchOpenTag at h
  split at h
  next c r =>
    split at h
    next hc =>
      split at h
      next hm =>
        injection h with h'
        subst h'
        have h1 : (List.dropWhile (fun x => x != '>') (List.drop tag.length r)).length
            ≤ (List.drop tag.length r).length := length_dropWhile_le' _ _
        rw [hm] at h1
        simp only [List.length_cons, List.length_drop] at h1 ⊢
        omega
      next => exact absurd h (by simp)
    next => exact absurd h (by simp)
  next => exact absurd h (by simp)

/-- Scan for the first (case-insensitive) occurrence of `pat` and return the
remainder after it: the lazy `[\s\S]*?` up to and including `pat`. -/
def dropThroughCi (pat : Str) : Str → Option Str
  | [] => none
  | c :: r =>
    if ciPrefixOf pat (c :: r) then some ((c :: r).drop pat.length)
    else dropThroughCi pat r

theorem dropThroughCi_length {pat t : Str} : ∀ {s : Str},
    dropThroughCi pat s = some t → t.length ≤ s.length := by
  intro s
  induction s with
  | nil => intro h; exact absurd h (by simp [dropThroughCi])
  | cons c r ih =>
    intro h
    unfold dropThroughCi at h
    split at h
    · cases h
      have := List.length_drop pat.length (c :: r)
      simp only [this, List.length_cons]
      omega
    · exact Nat.le_succ_of_le (ih h)

/-- Case-sensitive variant of `dropThroughCi` (for HTML comments). -/
def dropThrough (pat : Str) : Str → Option Str
  | [] => none
  | c :: r =>
    if pat.isPrefixOf (c :: r) then some ((c :: r).drop pat.length)
    else dropThrough pat r

theorem dropThrough_length {pat t : Str} : ∀ {s : Str},
    dropThrough pat s = some t → t.length ≤ s.length := by
  intro s
  induction s with
  | nil => intro h; exact absurd h (by simp [dropThrough])
  | cons c r ih =>
    intro h
    unfold dropThrough at h
    split at h
    · cases h
      have := List.length_drop pat.length (c :: r)
      simp only [this, List.length_cons]
      omega
    · exact Nat.le_succ_of_le (ih h)

/-!
The global-replace scanners below advance by at least one character per step
(see the `*_length` lemmas above), so running them with `s.length` units of
fuel is exhaustive; the fuel argument only makes the recursion structural.
-/

/-- One global-replace pass of `<tag[^>]*>[\s\S]*?<\/tag>/gi` with the empty
replacement (the script/style/noscript removal steps). -/
def removeTagBlocksF (tag : Str) : ℕ → Str → Str
  | _, [] => []
  | 0, s => s
  | fuel + 1, c :: rest =>
    match matchOpenTag tag (c :: rest) with
    | some afterOpen =>
      match dropThroughCi ('<' :: '/' :: (tag ++ ['>'])) afterOpen with
      | some afterClose => removeTagBlocksF tag fuel afterClose
      | none => c :: removeTagBlocksF tag fuel rest
    | none => c :: removeTagBlocksF tag fuel rest

def removeTagBlocks (tag s : Str) : Str := removeTagBlocksF tag s.length s

/-- One global-replace pass of `<!--[\s\S]*?-->/g` with the empty
replacement. -/
def removeCommentsF : ℕ → Str → Str
  | _, [] => []
  | 0, s => s
  | fuel + 1, c :: rest =>
    if "<!--".toList.isPrefixOf (c :: rest) then
      match dropThrough "-->".toList ((c :: rest).drop 4) with
      | some afterClose => removeCommentsF fuel afterClose
      | none => c :: removeCommentsF fuel rest
    else c :: removeCommentsF fuel rest

def removeComments (s : Str) : Str := removeCommentsF s.length s

/-- The tag-name alternatives of `<(p|h[1-6]|li|td|th|div|span|article|section)[^>]*>`. -/
def blockTags : List Str :=
  ["p".toList, "h1".toList, "h2".toList, "h3".toList, "h4".toList, "h5".toList,
   "h6".toList, "li".toList, "td".toList, "th".toList, "div".toList,
   "span".toList, "article".toList, "section".toList]

/-- Try each alternative of the block-tag alternation at the head of `s`. -/
def matchAnyOpenTag : List Str → Str → Option Str
  | [], _ => none
  | t :: ts, s =>
    match matchOpenTag t s with
    | some r => some r
    | none => matchAnyOpenTag ts s

/-- `replace(/<(p|h[1-6]|li|td|th|div|span|article|section)[^>]*>/gi, "\n")`. -/
def replaceBlockTagsF : ℕ → Str → Str
  | _, [] => []
  | 0, s => s
  | fuel + 1, c :: rest =>
    match matchAnyOpenTag blockTags (c :: rest) with
    | some afterOpen => '\n' :: replaceBlockTagsF fuel afterOpen
    | none => c :: replaceBlockTagsF fuel rest

def replaceBlockTags (s : Str) : Str := replaceBlockTagsF s.length s

/-- Match `<br\s*\/?>` (case-insensitive) at the head of `s`. -/
def matchBr (s : Str) : Option Str :=
  match s with
  | c :: r =>
    if c = '<' ∧ ciPrefixOf "br".toList r then
      match (r.drop 2).dropWhile isJsWS with
      | '/' :: '>' :: rest => some rest
      | '>' :: rest => some rest
      | _ => none
    else none
  | [] => none

/-- `replace(/<br\s*\/?>/gi, "\n")`. -/
def replaceBrF : ℕ → Str → Str
  | _, [] => []
  | 0, s => s
  | fuel + 1, c :: rest =>
    match matchBr (c :: rest) with
    | some afterBr => '\n' :: replaceBrF fuel afterBr
    | none => c :: replaceBrF fuel rest

def replaceBr (s : Str) : Str := replaceBrF s.length s

/-- Match `<[^>]+>` at the head of `s` (at least one non-`>` character). -/
def matchGenericTag : Str → Option Str
  | '<' :: x :: r =>
    if x = '>' then none
    else
      match (x :: r).dropWhile (· != '>') with
      | '>' :: rest => some rest
      | _ => none
  | _ => none

/-- `replace(/<[^>]+>/g, " ")`. -/
def replaceTagsF : ℕ → Str → Str
  | _, [] => []
  | 0, s => s
  | fuel + 1, c :: rest =>
    match matchGenericTag (c :: rest) with
    | some afterTag => ' ' :: replaceTagsF fuel afterTag
    | none => c :: replaceTagsF fuel rest

def replaceTags (s : Str) : Str := replaceTagsF s.length s

/-- Global replacement of the literal substring `pat` by `rep`
(the named-entity decoding steps; all patterns are non-empty). -/
def replaceSubF (pat rep : Str) : ℕ → Str → Str
  | _, [] => []
  | 0, s => s
  | fuel + 1, c :: rest =>
    if pat ≠ [] ∧ pat.isPrefixOf (c :: rest) then
      rep ++ replaceSubF pat rep fuel ((c :: rest).drop pat.length)
    else c :: replaceSubF pat rep fuel rest

def replaceSub (pat rep s : Str) : Str := replaceSubF pat rep s.length s

/-- `replace(/\s+/g, " ")`: every maximal whitespace run becomes one space. -/
def collapseWSF : ℕ → Str → Str
  | _, [] => []
  | 0, s => s
  | fuel + 1, c :: rest =>
    if isJsWS c then ' ' :: collapseWSF fuel (rest.dropWhile isJsWS)
    else c :: collapseWSF fuel rest

def collapseWS (s : Str) : Str := collapseWSF s.length s

/-- `replace(/\n\s+/g, "\n")`: a newline followed by whitespace keeps only
the newline. -/
def collapseNlWSF : ℕ → Str → Str
  | _, [] => []
  | 0, s => s
  | fuel + 1, c :: rest =>
    if c == '\n' && (match rest with | d :: _ => isJsWS d | [] => false) then
      '\n' :: collapseNlWSF fuel (rest.dropWhile isJsWS)
    else c :: collapseNlWSF fuel rest

def collapseNlWS (s : Str) : Str := collapseNlWSF s.length s

/-- `replace(/\n+/g, "\n")`: every maximal newline run becomes one newline. -/
def collapseNlF : ℕ → Str → Str
  | _, [] => []
  | 0, s => s
  | fuel + 1, c :: rest =>
    if c == '\n' then '\n' :: collapseNlF fuel (rest.dropWhile (· == '\n'))
    else c :: collapseNlF fuel rest

def collapseNl (s : Str) : Str := collapseNlF s.length s

/-- `extractText(html)` from `agent.ts`: the replace chain applied in source
order — script/style/noscript block removal, comment removal, block-level
tags and `<br>` to newlines, remaining tags to spaces, the five named
character references, whitespace collapse (`\s+` to a single space, then
`\n\s+` and `\n+` to a single newline), and a final trim. -/
def extractText (html : Str) : Str :=
  let s1 := removeTagBlocks "script".toList html
  let s2 := removeTagBlocks "style".toList s1
  let s3 := removeTagBlocks "noscript".toList s2
  let s4 := removeComments s3
  let s5 := replaceBlockTags s4
  let s6 := replaceBr s5
  let s7 := replaceTags s6
  let s8 := replaceSub "&nbsp;".toList " ".toList s7
  let s9 := replaceSub "&amp;".toList "&".toList s8
  let s10 := replaceSub "&lt;".toList "<".toList s9
  let s11 := replaceSub "&gt;".toList ">".toList s10
  let s12 := replaceSub "&quot;".toList "\x22".toList s11
  let s13 := replaceSub "&#39;".toList "\x27".toList s12
  let s14 := collapseWS s13
  let s15 := collapseNlWS s14
  let s16 := collapseNl s15
  jsTrim s16

/-- Claim C6 (code-bug evidence): the spec says newline boundaries produced
from block-level markup survive the whitespace collapse (runs of newlines
collapse to a single newline), but in the source the step
`replace(/\s+/g, " ")` runs FIRST and `\s` matches `\n`, so every newline is
rewritten into a space before the two newline-collapse steps (which are then
dead code).  On an input with two block elements the result contains no
newline at all. -/
theorem extractText_newlines_do_not_survive :
    extractText "<p>First block.</p><p>Second block.</p>".toList
      = "First block. Second block.".toList ∧
    ¬ '\n' ∈ extractText "<p>First block.</p><p>Second block.</p>".toList := by
  refine ⟨by decide, by decide⟩

/-! ### JSON extraction from the completion response -/

/-- Everything up to and including the last `\x7d` of `s`. -/
def takeThroughLastBrace (s : Str) : Str :=
  (s.reverse.dropWhile (· != '}')).reverse

/-- `response.match(/\{[\s\S]*\}/)`, the JSON extraction used by the
summarize, research and deep-research handlers: the leftmost-greedy match
starts at the first `\x7b` that is followed by some `\x7d` and extends to the
LAST `\x7d` of the whole response. -/
def jsonSpanGreedy : Str → Option Str
  | [] => none
  | c :: rest =>
    if c == '{' && rest.contains '}' then some ('{' :: takeThroughLastBrace rest)
    else jsonSpanGreedy rest

/-- Modelled from the spec: "extracts the first balanced `{...}` span from
the raw text response" — scan to the first `\x7b` and return the span up to
the brace that closes it (depth returning to zero). -/
def balancedSpanAux : Str → ℕ → Str → Option Str
  | [], _, _ => none
  | c :: rest, depth, acc =>
    if c == '{' then balancedSpanAux rest (depth + 1) (c :: acc)
    else if c == '}' then
      if depth == 1 then some (c :: acc).reverse
      else if depth == 0 then none
      else balancedSpanAux rest (depth - 1) (c :: acc)
    else balancedSpanAux rest depth (c :: acc)

/-- Modelled from the spec: the first balanced `\x7b...\x7d` span of `s`. -/
def firstBalancedBraceSpan (s : Str) : Option Str :=
  balancedSpanAux (s.dropWhile (· != '{')) 0 []

/-- Claim C7 counterexample: on a response holding two separate JSON objects,
`x \x7b"a": 1\x7d y \x7b"b": 2\x7d z`, the regex match of the code spans from the
first opening brace to the LAST closing brace (covering both objects), not
the first balanced object that the spec describes. -/
theorem jsonSpan_not_first_balanced :
    jsonSpanGreedy "x \x7b\x22a\x22: 1\x7d y \x7b\x22b\x22: 2\x7d z".toList
      = some "\x7b\x22a\x22: 1\x7d y \x7b\x22b\x22: 2\x7d".toList ∧
    firstBalancedBraceSpan "x \x7b\x22a\x22: 1\x7d y \x7b\x22b\x22: 2\x7d z".toList
      = some "\x7b\x22a\x22: 1\x7d".toList ∧
    jsonSpanGreedy "x \x7b\x22a\x22: 1\x7d y \x7b\x22b\x22: 2\x7d z".toList
      ≠ firstBalancedBraceSpan "x \x7b\x22a\x22: 1\x7d y \x7b\x22b\x22: 2\x7d z".toList := by
  refine ⟨by decide, by decide, by decide⟩

/-- Claim C7 (amended): the decode step extracts the span from the FIRST
opening brace to the LAST closing brace of the response (the greedy regex
`/\{[\s\S]*\}/`), so for a response containing two separate JSON objects the
extracted span covers both objects rather than the first balanced one. -/
theorem jsonSpanGreedy_first_to_last (pre mid post : Str)
    (h1 : ¬ '{' ∈ pre) (h2 : ¬ '}' ∈ post) :
    jsonSpanGreedy (pre ++ '{' :: (mid ++ '}' :: post))
      = some ('{' :: (mid ++ ['}'])) := by
  induction pre with
  | nil =>
    rw [List.nil_append]
    have hcond : ((('{' : Char) == '{') && (mid ++ '}' :: post).contains '}') = true := by
      simp only [beq_self_eq_true, Bool.true_and]
      exact List.elem_eq_true_of_mem
        (List.mem_append_right _ (List.mem_cons_self _ _))
    rw [jsonSpanGreedy, if_pos hcond]
    congr 1
    unfold takeThroughLastBrace
    rw [List.reverse_append, List.reverse_cons, List.append_assoc]
    have hpost : post.reverse.dropWhile (· != '}') = [] := by
      rw [List.dropWhile_eq_nil_iff]
      intro x hx
      simp only [ne_eq, bne_iff_ne]
      intro hxe
      exact h2 (by rw [← hxe]; exact (List.mem_reverse).mp hx)
    rw [List.dropWhile_append, hpost]
    simp only [List.isEmpty_nil, if_true, List.nil_append, List.singleton_append]
    rw [List.dropWhile_cons_of_neg (by simp)]
    simp
  | cons a pre ih =>
    have ha : (a == '{') = false := by
      simp only [beq_eq_false_iff_ne, ne_eq]
      intro hae
      exact h1 (by rw [hae]; exact List.mem_cons_self _ _)
    rw [List.cons_append, jsonSpanGreedy, ha]
    simp only [Bool.false_and, if_false]
    exact ih (fun hm => h1 (List.mem_cons_of_mem a hm))

/-- Witness for the amended C7 theorem at the two-object response
`x \x7b"a": 1\x7d y \x7b"b": 2\x7d z`. -/
theorem jsonSpanGreedy_first_to_last_witness :
    jsonSpanGreedy ("x ".toList ++ '{' ::
        ("\x22a\x22: 1\x7d y \x7b\x22b\x22: 2".toList ++ '}' :: " z".toList))
      = some ('{' :: ("\x22a\x22: 1\x7d y \x7b\x22b\x22: 2".toList ++ ['}'])) :=
  jsonSpanGreedy_first_to_last "x ".toList "\x22a\x22: 1\x7d y \x7b\x22b\x22: 2".toList
    " z".toList (by decide) (by decide)

/-! ### Search-result aggregation and deduplication -/

/-- The `SearchResult` interface of `agent.ts`. -/
structure SearchResult where
  title : Str
  url : Str
  description : Str
  deriving DecidableEq

/-- One `Map.set` step of `new Map(allResults.map(r => [r.url, r]))`: an
existing key keeps its position but takes the new value; a new key is
appended in insertion order. -/
def mapSet (acc : List SearchResult) (r : SearchResult) : List SearchResult :=
  if acc.any (fun x => x.url == r.url) then
    acc.map (fun x => if x.url = r.url then r else x)
  else acc ++ [r]

/-- `Array.from(new Map(allResults.map(r => [r.url, r])).values())`:
deduplication by `url`, iteration in first-insertion order with last-written
values. -/
def dedupByUrl (rs : List SearchResult) : List SearchResult := rs.foldl mapSet []

/-- The first entry carrying the given url. -/
def entryFor (u : Str) (l : List SearchResult) : Option SearchResult :=
  l.find? (fun x => x.url == u)

/-- The last entry of `l` carrying the given url ("last seen"). -/
def lastEntryFor (u : Str) (l : List SearchResult) : Option SearchResult :=
  entryFor u l.reverse

theorem find?_map_replace_eq (r : SearchResult) : ∀ (acc : List SearchResult),
    acc.any (fun x => x.url == r.url) = true →
    (acc.map (fun x => if x.url = r.url then r else x)).find?
      (fun y => y.url == r.url) = some r := by
  intro acc
  induction acc with
  | nil => intro h; simp at h
  | cons x0 t ih =>
    intro h
    by_cases hx : x0.url = r.url
    · rw [List.map_cons, if_pos hx]
      exact List.find?_cons_of_pos _ (by simp)
    · have ht : t.any (fun x => x.url == r.url) = true := by
        simp only [List.any_cons, Bool.or_eq_true, beq_iff_eq] at h
        rcases h with h | h
        · exact absurd h hx
        · simpa [List.any_eq_true] using h
      rw [List.map_cons, if_neg hx, List.find?_cons_of_neg _ (by simp [hx])]
      exact ih ht

theorem find?_map_replace_ne (r : SearchResult) (u : Str) (hu : u ≠ r.url) :
    ∀ (acc : List SearchResult),
    (acc.map (fun x => if x.url = r.url then r else x)).find? (fun y => y.url == u)
      = acc.find? (fun y => y.url == u) := by
  intro acc
  induction acc with
  | nil => rfl
  | cons x0 t ih =>
    by_cases hx : x0.url = r.url
    · rw [List.map_cons, if_pos hx,
        List.find?_cons_of_neg _ (by simp only [beq_iff_eq]; exact Ne.symm hu),
        List.find?_cons_of_neg _
          (by simp only [beq_iff_eq, hx]; exact Ne.symm hu)]
      exact ih
    · rw [List.map_cons, if_neg hx]
      by_cases h2 : x0.url = u
      · rw [List.find?_cons_of_pos _ (by simp [h2]),
          List.find?_cons_of_pos _ (by simp [h2])]
      · rw [List.find?_cons_of_neg _ (by simp [h2]),
          List.find?_cons_of_neg _ (by simp [h2])]
        exact ih

theorem entryFor_mapSet (acc : List SearchResult) (r : SearchResult) (u : Str) :
    entryFor u (mapSet acc r) = (entryFor u [r]).or (entryFor u acc) := by
  unfold mapSet
  by_cases hany : acc.any (fun x => x.url == r.url) = true
  · rw [if_pos hany]
    by_cases hu : u = r.url
    · subst hu
      rw [entryFor, find?_map_replace_eq r acc hany]
      simp [entryFor]
    · rw [entryFor, find?_map_replace_ne r u hu]
      have h1 : entryFor u [r] = none := by
        rw [entryFor]
        apply List.find?_eq_none.mpr
        intro x hx
        rw [List.mem_singleton] at hx
        subst hx
        simp only [beq_iff_eq]
        exact Ne.symm hu
      rw [h1, Option.none_or]
      rfl
  · rw [if_neg hany]
    by_cases hu : u = r.url
    · subst hu
      have hacc : acc.find? (fun y => y.url == r.url) = none := by
        rw [List.find?_eq_none]
        intro x hx
        simp only [beq_iff_eq]
        intro hxe
        exact hany (List.any_eq_true.mpr ⟨x, hx, by simp [hxe]⟩)
      rw [entryFor, List.find?_append, hacc, Option.none_or]
      simp [entryFor]
    · have h2 : List.find? (fun y => y.url == u) [r] = none := by
        apply List.find?_eq_none.mpr
        intro x hx
        rw [List.mem_singleton] at hx
        subst hx
        simp only [beq_iff_eq]
        exact Ne.symm hu
      have h1 : entryFor u [r] = none := h2
      rw [entryFor, List.find?_append, h2, Option.or_none, h1, Option.none_or]
      rfl

theorem entryFor_foldl_mapSet (u : Str) : ∀ (rs acc : List SearchResult),
    entryFor u (rs.foldl mapSet acc) = (lastEntryFor u rs).or (entryFor u acc) := by
  intro rs
  induction rs with
  | nil =>
    intro acc
    simp [lastEntryFor, entryFor, List.find?, Option.none_or]
  | cons r rs ih =>
    intro acc
    rw [List.foldl_cons, ih (mapSet acc r), entryFor_mapSet]
    have hlast : lastEntryFor u (r :: rs)
        = (lastEntryFor u rs).or (entryFor u [r]) := by
      rw [lastEntryFor, List.reverse_cons, entryFor, List.find?_append]
      rfl
    rw [hlast, Option.or_assoc]

theorem mapSet_map_url (acc : List SearchResult) (r : SearchResult) :
    (mapSet acc r).map (·.url)
      = if acc.any (fun x => x.url == r.url) then acc.map (·.url)
        else acc.map (·.url) ++ [r.url] := by
  unfold mapSet
  by_cases hany : acc.any (fun x => x.url == r.url) = true
  · rw [if_pos hany, if_pos hany, List.map_map]
    apply List.map_congr_left
    intro x _
    by_cases hx : x.url = r.url
    · simp [hx]
    · simp [hx]
  · rw [if_neg hany, if_neg hany, List.map_append]
    rfl

theorem nodup_url_foldl_mapSet : ∀ (rs acc : List SearchResult),
    (acc.map (·.url)).Nodup → ((rs.foldl mapSet acc).map (·.url)).Nodup := by
  intro rs
  induction rs with
  | nil => intro acc h; exact h
  | cons r rs ih =>
    intro acc h
    rw [List.foldl_cons]
    apply ih
    rw [mapSet_map_url]
    by_cases hany : acc.any (fun x => x.url == r.url) = true
    · rwa [if_pos hany]
    · rw [if_neg hany]
      apply List.Nodup.append h (List.nodup_singleton _)
      intro a ha hb
      rw [List.mem_singleton] at hb
      subst hb
      obtain ⟨x, hx, hxe⟩ := List.mem_map.mp ha
      exact hany (List.any_eq_true.mpr ⟨x, hx, by simp [hxe]⟩)

/-- Claim C8: after aggregating the search results of all planned queries in
merge order, deduplication by `url` (the JS `Map` built from `[r.url, r]`
pairs) yields pairwise-distinct urls, and for every url the kept entry is the
LAST entry of the aggregated list carrying that url (so its title and
description come from the later result). -/
theorem dedupByUrl_last_wins (rs : List SearchResult) :
    ((dedupByUrl rs).map (·.url)).Nodup ∧
    ∀ u : Str, entryFor u (dedupByUrl rs) = lastEntryFor u rs := by
  constructor
  · exact nodup_url_foldl_mapSet rs [] (by simp)
  · intro u
    rw [dedupByUrl, entryFor_foldl_mapSet]
    have : entryFor u [] = none := rfl
    rw [this, Option.or_none]

/-! ### The entrypoint handlers

External effects are oracle inputs: `search q c` is what `webSearch(q, c)`
returns (`[]` on a missing key, error response or thrown error), `httpGet u`
is the body text of a successful page fetch (`none` for any failure, so
`fetchAndExtract` yields `""`), `aiResponse` is what `callAI` returns (`""`
on a missing key, error response or thrown error), and `parse` is
`JSON.parse` on the extracted span (`none` when it throws; for the summarize
path the oracle value carries the `parsed.summary || ""` and
`parsed.keyPoints || []` defaults already applied). -/

/-- A successfully `JSON.parse`d completion payload (the code never inspects
its shape before storing it, so the payload is left abstract). -/
structure ParsedJson where
  raw : Str
  deriving DecidableEq

/-- Decode chain shared by the handlers:
`if (aiResponse) { const m = aiResponse.match(/\{[\s\S]*\}/); if (m) { X = JSON.parse(m[0]); } }`
wrapped in `try/catch`. -/
def decodeAi {α : Type} (parse : Str → Option α) (aiResponse : Str) : Option α :=
  if aiResponse.isEmpty then none
  else
    match jsonSpanGreedy aiResponse with
    | some span => parse span
    | none => none

/-- The `depth` enumeration of the deep-research schema. -/
inductive Depth
  | quick
  | thorough
  | exhaustive
  deriving DecidableEq

/-- `depth === "quick" ? 5 : depth === "thorough" ? 10 : 15`. -/
def searchCountFor : Depth → ℕ
  | .quick => 5
  | .thorough => 10
  | .exhaustive => 15

/-- The query-list cap `depth === "quick" ? 2 : depth === "thorough" ? 4 : 6`. -/
def queryCap : Depth → ℕ
  | .quick => 2
  | .thorough => 4
  | .exhaustive => 6

/-- The deduplicated-results cap `5 / 10 / 20` by depth. -/
def dedupCap : Depth → ℕ
  | .quick => 5
  | .thorough => 10
  | .exhaustive => 20

/-- `fetchLimit = depth === "quick" ? 3 : depth === "thorough" ? 5 : 8`. -/
def fetchLimitFor : Depth → ℕ
  | .quick => 3
  | .thorough => 5
  | .exhaustive => 8

/-- The planned queries of the deep-research handler. -/
def buildQueries (topic : Str) (focusAreas : Option (List Str)) (depth : Depth) : List Str :=
  ([topic, topic ++ " explained".toList, topic ++ " criticism problems".toList]
    ++ (focusAreas.getD []).map (fun f => topic ++ " ".toList ++ f)).take (queryCap depth)

/-- `fetchAndExtract(url)` from `agent.ts`: extract text from a fetched body
and truncate to 10000 characters; the empty string on any fetch failure. -/
def fetchAndExtract (httpGet : Str → Option Str) (url : Str) : Str :=
  match httpGet url with
  | none => []
  | some html => (extractText html).take 10000

/-- The `sourceContents` record of the deep-research handler. -/
structure SourceContent where
  url : Str
  title : Str
  content : Str
  deriving DecidableEq

/-- The source-gathering loop: fetch the top `fetchLimit` deduplicated
results and keep those whose extracted body exceeds 200 characters,
truncated to 5000. -/
def gatherSources (uniqueResults : List SearchResult) (depth : Depth)
    (httpGet : Str → Option Str) : List SourceContent :=
  ((uniqueResults.take (fetchLimitFor depth)).map
      (fun r => (r, fetchAndExtract httpGet r.url))).filterMap
    (fun p => if 200 < p.2.length then some ⟨p.1.url, p.1.title, p.2.take 5000⟩
              else none)

/-- The deep-research input after schema validation. -/
structure DeepResearchInput where
  topic : Str
  questions : Option (List Str)
  depth : Depth
  focusAreas : Option (List Str)
  deriving DecidableEq

/-- The `methodology` object of the deep-research output. -/
structure Methodology where
  searchQueries : List Str
  sourcesFound : ℕ
  sourcesAnalyzed : ℕ
  deriving DecidableEq

/-- One entry of the `sources` array of the deep-research output. -/
structure SourceEntry where
  title : Str
  url : Str
  snippet : Str
  deriving DecidableEq

/-- One entry of the `rawSources` array of the synthesis fallback. -/
structure SourceRef where
  title : Str
  url : Str
  deriving DecidableEq

/-- The `synthesis` field: either the parsed AI object or the fallback
object `{error: "AI synthesis unavailable", rawSources}`. -/
inductive SynthesisField
  | parsed (j : ParsedJson)
  | fallback (error : Str) (rawSources : List SourceRef)
  deriving DecidableEq

/-- The deep-research response object. -/
structure DeepResearchOutput where
  success : Bool
  topic : Str
  depth : Depth
  methodology : Methodology
  sources : List SourceEntry
  synthesis : SynthesisField
  tedNote : Str
  deriving DecidableEq

/-- The deep-research handler from `agent.ts`. -/
def deepResearchHandler (inp : DeepResearchInput)
    (search : Str → ℕ → List SearchResult) (httpGet : Str → Option Str)
    (aiResponse : Str) (parse : Str → Option ParsedJson) : DeepResearchOutput :=
  let queries := buildQueries inp.topic inp.focusAreas inp.depth
  let allResults := queries.flatMap (fun q => search q (searchCountFor inp.depth))
  let uniqueResults := (dedupByUrl allResults).take (dedupCap inp.depth)
  let sourceContents := gatherSources uniqueResults inp.depth httpGet
  let synthesis := decodeAi parse aiResponse
  { success := true
    topic := inp.topic
    depth := inp.depth
    methodology := ⟨queries, uniqueResults.length, sourceContents.length⟩
    sources := uniqueResults.map (fun r => ⟨r.title, r.url, r.description⟩)
    synthesis :=
      match synthesis with
      | some j => .parsed j
      | none => .fallback "AI synthesis unavailable".toList
          (sourceContents.map (fun sc => ⟨sc.title, sc.url⟩))
    tedNote :=
      match synthesis with
      | some _ => "I searched the web, read the sources, and synthesized the findings. This is real research, not vibes. Verify anything important.".toList
      | none => "Web search completed but AI synthesis failed. You have the raw sources.".toList }

/-- The research input after schema validation. -/
structure ResearchInput where
  topic : Str
  questions : Option (List Str)
  skepticalMode : Bool
  deriving DecidableEq

/-- The canned `skepticalAnalysis` object of the research fallback. -/
structure SkepticalAnalysis where
  questionsToAsk : List Str
  potentialBiases : List Str
  deriving DecidableEq

/-- The research response object (fields absent from a branch are `none`). -/
structure ResearchOutput where
  topic : Str
  timestamp : Str
  suggestedSearches : List Str
  questionsToAnswer : List Str
  aiPowered : Bool
  analysis : Option ParsedJson
  skepticalAnalysis : Option SkepticalAnalysis
  tedTake : Option Str
  disclaimer : Option Str
  tedNote : Option Str
  success : Bool
  deriving DecidableEq

/-- The research handler from `agent.ts`; `now` is `new Date().toISOString()`. -/
def researchHandler (inp : ResearchInput) (now : Str) (aiResponse : Str)
    (parse : Str → Option ParsedJson) : ResearchOutput :=
  let aiAnalysis := decodeAi parse aiResponse
  let suggestedSearches := [inp.topic ++ " overview".toList,
    inp.topic ++ " criticism".toList, inp.topic ++ " vs alternatives".toList,
    inp.topic ++ " problems".toList]
  let questionsToAnswer :=
    match inp.questions with
    | some qs => qs
    | none => ["What problem does ".toList ++ inp.topic ++ " actually solve?".toList,
        "Who benefits most from ".toList ++ inp.topic ++ "?".toList,
        "What are the trade-offs?".toList]
  match aiAnalysis with
  | some j =>
    { topic := inp.topic
      timestamp := now
      suggestedSearches := suggestedSearches
      questionsToAnswer := questionsToAnswer
      aiPowered := true
      analysis := some j
      skepticalAnalysis := none
      tedTake := none
      disclaimer := none
      tedNote := some "AI-synthesized research. I\x27ve connected dots, but verify claims that matter.".toList
      success := true }
  | none =>
    { topic := inp.topic
      timestamp := now
      suggestedSearches := suggestedSearches
      questionsToAnswer := questionsToAnswer
      aiPowered := false
      analysis := none
      skepticalAnalysis :=
        if inp.skepticalMode then
          some ⟨["What incentives does the source have?".toList,
                 "What\x27s NOT being said here?".toList,
                 "Who benefits from this framing?".toList],
                ["Assumes shared baseline beliefs".toList,
                 "Takes current trends as permanent".toList]⟩
        else none
      tedTake := some (inp.topic ++ " is being discussed like it\x27s new. It\x27s not. The patterns here are older than the internet.".toList)
      disclaimer := some "Framework only - AI unavailable for deep analysis.".toList
      tedNote := none
      success := true }

theorem flatMap_const_nil {α β : Type} (l : List α) :
    l.flatMap (fun _ => ([] : List β)) = [] := by
  induction l with
  | nil => rfl
  | cons a t ih => simp [List.flatMap_cons, ih]

/-- Claim C1: when the completion capability is unavailable or its call or
decode fails (`decodeAi ... = none`; `callAI` returns `""` in every failure
branch and a failed `JSON.parse` is caught), the deep-research and research
handlers still return `success: true` with the defined fallback payloads:
deep-research carries the `synthesis` fallback `{error: "AI synthesis
unavailable", rawSources}` and the failure `tedNote`; research returns the
deterministic framework with `aiPowered: false`, no `analysis`, the canned
skeptical-analysis object when `skepticalMode` is set, and the
`AI unavailable` disclaimer.  If additionally the search capability is
unavailable (every search yields `[]`), deep-research reports `sources: []`
and `methodology.sourcesFound = 0`. -/
theorem fallback_on_ai_failure (dinp : DeepResearchInput)
    (search : Str → ℕ → List SearchResult) (httpGet : Str → Option Str)
    (rinp : ResearchInput) (now : Str) (aiResponse : Str)
    (parse : Str → Option ParsedJson)
    (hfail : decodeAi parse aiResponse = none) :
    ((deepResearchHandler dinp search httpGet aiResponse parse).success = true ∧
     (deepResearchHandler dinp search httpGet aiResponse parse).synthesis
       = .fallback "AI synthesis unavailable".toList
          ((gatherSources ((dedupByUrl
                ((buildQueries dinp.topic dinp.focusAreas dinp.depth).flatMap
                  (fun q => search q (searchCountFor dinp.depth)))).take
              (dedupCap dinp.depth)) dinp.depth httpGet).map
            (fun sc => ⟨sc.title, sc.url⟩)) ∧
     (deepResearchHandler dinp search httpGet aiResponse parse).tedNote
       = "Web search completed but AI synthesis failed. You have the raw sources.".toList) ∧
    ((researchHandler rinp now aiResponse parse).success = true ∧
     (researchHandler rinp now aiResponse parse).aiPowered = false ∧
     (researchHandler rinp now aiResponse parse).analysis = none ∧
     (researchHandler rinp now aiResponse parse).tedNote = none ∧
     (researchHandler rinp now aiResponse parse).disclaimer
       = some "Framework only - AI unavailable for deep analysis.".toList ∧
     (researchHandler rinp now aiResponse parse).tedTake
       = some (rinp.topic ++ " is being discussed like it\x27s new. It\x27s not. The patterns here are older than the internet.".toList) ∧
     (rinp.skepticalMode = true →
       (researchHandler rinp now aiResponse parse).skepticalAnalysis ≠ none)) ∧
    ((∀ q c, search q c = []) →
      (deepResearchHandler dinp search httpGet aiResponse parse).sources = [] ∧
      (deepResearchHandler dinp search httpGet aiResponse parse).methodology.sourcesFound
        = 0) := by
  refine ⟨⟨?_, ?_, ?_⟩, ⟨?_, ?_, ?_, ?_, ?_, ?_, ?_⟩, ?_⟩
  · rfl
  · simp only [deepResearchHandler, hfail]
  · simp only [deepResearchHandler, hfail]
  · simp only [researchHandler, hfail]
  · simp only [researchHandler, hfail]
  · simp only [researchHandler, hfail]
  · simp only [researchHandler, hfail]
  · simp only [researchHandler, hfail]
  · simp only [researchHandler, hfail]
  · intro hsk
    simp only [researchHandler, hfail, if_pos hsk]
    exact Option.some_ne_none _
  · intro hs
    have hall : (buildQueries dinp.topic dinp.focusAreas dinp.depth).flatMap
        (fun q => search q (searchCountFor dinp.depth)) = [] := by
      have : (fun q => search q (searchCountFor dinp.depth))
          = (fun _ => ([] : List SearchResult)) := by
        funext q; exact hs q _
      rw [this, flatMap_const_nil]
    constructor
    · simp only [deepResearchHandler, hall, dedupByUrl, List.foldl_nil,
        List.take_nil, List.map_nil]
    · simp only [deepResearchHandler, hall, dedupByUrl, List.foldl_nil,
        List.take_nil, List.length_nil]

/-- Witness for C1 at a concrete request with every capability down:
no search results, no fetches, empty completion response, failing parse. -/
theorem fallback_on_ai_failure_witness :
    decodeAi (fun _ => (none : Option ParsedJson)) [] = none ∧
    (deepResearchHandler ⟨"Xyz".toList, none, .quick, none⟩ (fun _ _ => [])
        (fun _ => none) [] (fun _ => none)).success = true ∧
    (researchHandler ⟨"Xyz".toList, none, true⟩ [] [] (fun _ => none)).success
      = true ∧
    (researchHandler ⟨"Xyz".toList, none, true⟩ [] [] (fun _ => none)).aiPowered
      = false ∧
    (deepResearchHandler ⟨"Xyz".toList, none, .quick, none⟩ (fun _ _ => [])
        (fun _ => none) [] (fun _ => none)).sources = [] := by
  have h := fallback_on_ai_failure ⟨"Xyz".toList, none, .quick, none⟩
    (fun _ _ => []) (fun _ => none) ⟨"Xyz".toList, none, true⟩ [] []
    (fun _ => none) rfl
  exact ⟨rfl, h.1.1, h.2.1.1, h.2.1.2.1, (h.2.2 (fun _ _ => rfl)).1⟩

/-! ### The summarize handler -/

/-- The observable outcome of the `fetch(url)` in the summarize handler:
either a response (with its `ok` flag, status and body text) or a thrown
transport error. -/
inductive FetchOutcome
  | resp (ok : Bool) (status : ℕ) (body : Str)
  | err (msg : Str)
  deriving DecidableEq

/-- The summarize input after schema validation (`maxLength` defaulted). -/
structure SummarizeInput where
  url : Option Str
  text : Option Str
  maxLength : ℕ
  keywords : Option (List Str)
  deriving DecidableEq

/-- A successfully parsed AI summary payload, with the
`parsed.summary || ""` and `parsed.keyPoints || []` defaults applied. -/
structure ParsedSummary where
  summary : Str
  keyPoints : List Str
  deriving DecidableEq

/-- The summarize response object; fields absent from a branch are `none`. -/
structure SummarizeOutput where
  success : Bool
  error : Option Str := none
  url : Option Str := none
  summary : Option Str := none
  keyPoints : Option (List Str) := none
  sourceUrl : Option Str := none
  originalWordCount : Option ℕ := none
  summaryLength : Option ℕ := none
  aiPowered : Option Bool := none
  tedNote : Option Str := none
  deriving DecidableEq

/-- Decimal rendering of a status code for the `HTTP ${status}` message. -/
def natToStr (n : ℕ) : Str := (toString n).toList

/-- The tail of the summarize handler after `content` is fixed: AI attempt,
algorithmic fallback, and the success envelope. -/
def summarizeCore (content : Str) (fetchedUrl : Option Str)
    (inp : SummarizeInput) (aiResponse : Str)
    (parse : Str → Option ParsedSummary) : SummarizeOutput :=
  let aiRes := decodeAi parse aiResponse
  let aiSummary := (aiRes.map (·.summary)).getD []
  let aiKeyPoints := (aiRes.map (·.keyPoints)).getD []
  let algoResult := summarizeText content inp.maxLength (inp.keywords.getD [])
  let isAiPowered : Bool := decide (50 < aiSummary.length)
  { success := true
    summary := some (if isAiPowered then aiSummary else algoResult.summary)
    keyPoints := some (if isAiPowered then aiKeyPoints else algoResult.keyPoints)
    sourceUrl := fetchedUrl
    originalWordCount := some algoResult.wordCount
    summaryLength := some (if isAiPowered then aiSummary else algoResult.summary).length
    aiPowered := some isAiPowered
    tedNote := some (if isAiPowered then
        "AI-analyzed summary. I looked for what matters, not just what\x27s repeated.".toList
      else "Algorithmic fallback. AI unavailable.".toList) }

/-- The summarize handler from `agent.ts`. -/
def summarizeHandler (inp : SummarizeInput) (fetchOutcome : FetchOutcome)
    (aiResponse : Str) (parse : Str → Option ParsedSummary) : SummarizeOutput :=
  match inp.url with
  | some u =>
    match fetchOutcome with
    | .err msg =>
      { success := false, error := some ("Fetch failed: ".toList ++ msg),
        url := some u }
    | .resp ok status body =>
      if ok then
        let content := extractText body
        if content.length < 100 then
          { success := false,
            error := some "Couldn\x27t extract meaningful text from URL.".toList,
            url := some u,
            tedNote := some "Modern web: where pages load without content until JavaScript runs.".toList }
        else summarizeCore content (some u) inp aiResponse parse
      else
        { success := false,
          error := some ("Failed to fetch: HTTP ".toList ++ natToStr status),
          url := some u }
  | none => summarizeCore (inp.text.getD []) none inp aiResponse parse

/-- A fetch outcome that lets the summarize url path proceed: a response
with a success status whose extracted text reaches 100 characters. -/
def fetchYieldsContent (fo : FetchOutcome) : Prop :=
  match fo with
  | .resp ok _ body => ok = true ∧ 100 ≤ (extractText body).length
  | .err _ => False

/-- Claim C2 counterexample: a user-supplied url fetched with a success
status and no transport error (here HTTP 200 with body `<html></html>`)
still produces `success: false`, because the extracted text is shorter than
100 characters — a third failure cause beyond input validation and wholesale
fetch failure, contradicting the claim. -/
theorem summarize_success_false_despite_ok_fetch :
    (summarizeHandler ⟨some "https://example.com".toList, none, 500, none⟩
        (.resp true 200 "<html></html>".toList) [] (fun _ => none)).success
      = false := by
  decide

/-- Claim C2 (amended): a summarize request that passed validation returns
`success: true` exactly when no url was supplied (the text path), or the
supplied url was fetched without a transport error, with a success status,
AND with at least 100 characters of extracted text; transport errors,
non-success statuses and under-100-character extractions on the url path are
the only `success: false` causes in the handler. -/
theorem summarize_success_iff (inp : SummarizeInput) (fo : FetchOutcome)
    (aiResponse : Str) (parse : Str → Option ParsedSummary) :
    (summarizeHandler inp fo aiResponse parse).success = true ↔
      (inp.url = none ∨ fetchYieldsContent fo) := by
  unfold summarizeHandler
  cases hurl : inp.url with
  | none => simp [summarizeCore, fetchYieldsContent]
  | some u =>
    cases fo with
    | err msg => simp [fetchYieldsContent]
    | resp ok status body =>
      cases ok with
      | false => simp [fetchYieldsContent]
      | true =>
        dsimp only
        by_cases hlen : (extractText body).length < 100
        · rw [if_pos rfl, if_pos hlen]
          simp only [fetchYieldsContent]
          constructor
          · intro h; exact absurd h (by simp)
          · rintro (h | ⟨-, h⟩)
            · exact absurd h (by simp)
            · omega
        · rw [if_pos rfl, if_neg hlen]
          simp only [summarizeCore, fetchYieldsContent]
          constructor
          · intro _; right; exact ⟨by trivial, by omega⟩
          · intro _; trivial

/-! ### The summarize schema -/

/-- The raw summarize request before defaulting (`maxLength` optional,
defaulted to 500 by the schema). -/
structure SummarizeRawInput where
  url : Option Str
  text : Option Str
  maxLength : Option ℕ
  keywords : Option (List Str)
  deriving DecidableEq

/-- JavaScript truthiness of an optional string field: present and
non-empty (`""` is falsy). -/
def jsTruthyStr : Option Str → Bool
  | some s => !s.isEmpty
  | none => false

/-- The `summarizeSchema` checks: `z.string().url()` on `url` (the format
check is the external validator `urlOk`), the `maxLength` range 100..2000,
and the refine `data => data.url || data.text`. -/
def summarizeSchemaAccepts (urlOk : Str → Bool) (i : SummarizeRawInput) : Bool :=
  (match i.url with | some u => urlOk u | none => true) &&
  (match i.maxLength with
   | some m => decide (100 ≤ m) && decide (m ≤ 2000)
   | none => true) &&
  (jsTruthyStr i.url || jsTruthyStr i.text)

/-- Claim C9 counterexample: a request supplying BOTH a (valid, non-empty)
url and a non-empty text passes validation — the refine
`data.url || data.text` demands at least one, not exactly one, so the claim
that such a request is rejected is false. -/
theorem summarizeSchema_accepts_both :
    summarizeSchemaAccepts (fun _ => true)
      ⟨some "https://example.com".toList, some "hello world".toList,
       some 500, none⟩ = true := by
  decide

/-- Claim C9 (amended): summarize validation requires AT LEAST one of
`url`/`text` to be meaningfully present (non-empty): a request supplying
neither is rejected, while a request supplying both passes validation (and
the url then takes precedence in the handler); acceptance holds exactly when
the url format check, the maxLength range check and the
at-least-one-present refine all hold. -/
theorem summarizeSchema_at_least_one (urlOk : Str → Bool) (i : SummarizeRawInput) :
    summarizeSchemaAccepts urlOk i = true ↔
      ((match i.url with | some u => urlOk u = true | none => True) ∧
       (match i.maxLength with | some m => 100 ≤ m ∧ m ≤ 2000 | none => True) ∧
       (jsTruthyStr i.url = true ∨ jsTruthyStr i.text = true)) := by
  obtain ⟨url, text, ml, kw⟩ := i
  unfold summarizeSchemaAccepts
  cases url <;> cases ml <;>
    simp [Bool.and_eq_true, Bool.or_eq_true, and_assoc]

/-! ### Url precedence in the summarize handler -/

/-- Claim C10: a summarize request supplying both `url` and `text` behaves
identically to one supplying only the `url` — the handler output never
depends on the supplied text once a url is present — and on a successful
fetch with at least 100 characters of extracted text the returned word count
is computed from the content fetched and extracted from the url, with
`sourceUrl` echoing the url. -/
theorem summarize_url_precedence (u t : Str) (ml : ℕ) (kw : Option (List Str))
    (fo : FetchOutcome) (aiResponse : Str) (parse : Str → Option ParsedSummary) :
    (summarizeHandler ⟨some u, some t, ml, kw⟩ fo aiResponse parse
      = summarizeHandler ⟨some u, none, ml, kw⟩ fo aiResponse parse) ∧
    (∀ (status : ℕ) (body : Str), fo = .resp true status body →
      100 ≤ (extractText body).length →
      (summarizeHandler ⟨some u, some t, ml, kw⟩ fo aiResponse parse).originalWordCount
        = some (summarizeText (extractText body) ml (kw.getD [])).wordCount ∧
      (summarizeHandler ⟨some u, some t, ml, kw⟩ fo aiResponse parse).sourceUrl
        = some u) := by
  constructor
  · cases fo with
    | err msg => rfl
    | resp ok status body =>
      cases ok with
      | false => rfl
      | true =>
        unfold summarizeHandler
        dsimp only
        by_cases hlen : (extractText body).length < 100
        · rw [if_pos rfl, if_pos hlen, if_pos rfl, if_pos hlen]
        · rw [if_pos rfl, if_neg hlen, if_pos rfl, if_neg hlen]
          rfl
  · intro status body hfo hlen
    subst hfo
    unfold summarizeHandler
    dsimp only
    rw [if_pos rfl, if_neg (by omega)]
    exact ⟨rfl, rfl⟩

set_option maxRecDepth 8000 in
/-- Witness for C10 at a concrete request: both url and text supplied, a
successful fetch of a 150-character plain-text body. -/
theorem summarize_url_precedence_witness :
    100 ≤ (extractText (List.replicate 150 'a')).length ∧
    (summarizeHandler
        ⟨some "https://example.com".toList, some "ignored text".toList, 500, none⟩
        (.resp true 200 (List.replicate 150 'a')) [] (fun _ => none)).originalWordCount
      = some (summarizeText (extractText (List.replicate 150 'a')) 500
          ((none : Option (List Str)).getD [])).wordCount := by
  have h := (summarize_url_precedence "https://example.com".toList
    "ignored text".toList 500 none (.resp true 200 (List.replicate 150 'a'))
    [] (fun _ => none)).2 200 (List.replicate 150 'a') rfl (by decide)
  exact ⟨by decide, h.1⟩
